import Mathlib

/-!
Verification development for the TrulyFresh route/packing pipeline
(src/app.py).  The Python pipeline is shallowly embedded: pandas columns
become lists, nullable cells become `Option`, dataframe operations become
list functions, and the fallible integer cast becomes an `Option`-valued
conversion.  Every definition mirrors the corresponding source line; the
theorems below settle the specification claims against these definitions.
-/

/-! ## Classifier (src/app.py, determine_product_type, lines 56-64) -/

/-- Python `str.lower()` restricted to what matters here: ASCII letters are
lowercased, every other character (in particular the CJK tag keywords) is
unchanged.  -/
def pyLower (s : String) : String :=
  String.mk (s.data.map Char.toLower)

/-- Python `in` on strings: `strContains s pat` is true when `pat` occurs as
a contiguous substring of `s`.  -/
def strContains (s pat : String) : Bool :=
  decide (pat.data <:+: s.data)

/-- Embedding of `determine_product_type(tag)` from src/app.py lines 56-64:
lowercase the tag, then test the keyword groups in source order. -/
def determine_product_type (tag : String) : String :=
  let t := pyLower tag
  if strContains t "蔬菜水果类" || strContains t "独家订阅包" then "vege & fruit"
  else if strContains t "冰冻冷藏类" then "cool"
  else if strContains t "常温类" then "general"
  else "other"

/-! ## Item-field extraction (src/app.py, lines 36-37 and 43) -/

/-- First contiguous run of decimal digits in a character list; `none` when
no digit occurs.  This is the semantics of the pandas regex extraction
`.str.extract` with the one-or-more-digits pattern used on line 37. -/
def firstDigitRun : List Char → Option (List Char)
  | [] => none
  | c :: rest =>
      if c.isDigit then some (c :: rest.takeWhile Char.isDigit)
      else firstDigitRun rest

/-- Embedding of line 37, the `Item Count` column:
`route_df[ItemsCol].str[:3].str.extract(digitsPattern)` — the first digit
run inside the first three characters of the item field, `none` (pandas NaN)
when those characters hold no digit. -/
def itemCountOf (items : String) : Option String :=
  (firstDigitRun (items.data.take 3)).map String.mk

/-- Embedding of line 36, the `Lineitem name` column:
`route_df[ItemsCol].str[3:]` — everything from character index 3 on. -/
def lineitemNameOf (items : String) : String :=
  String.mk (items.data.drop 3)

/-- Embedding of line 43, the display `Count` column:
`np.where(ItemCount != "1", ItemCount, emptyString)`.  A NaN item count
compares unequal to "1", so NaN propagates; the value "1" is replaced by
the empty string; every other value passes through. -/
def countFieldOf (itemCount : Option String) : Option String :=
  match itemCount with
  | none => none
  | some c => if c ≠ "1" then some c else some ""

/-! ## Integer cast (src/app.py, line 131) -/

/-- Numeric value of a list of decimal digits. -/
def digitsToNat (cs : List Char) : Nat :=
  cs.foldl (fun n c => 10 * n + (c.toNat - 48)) 0

/-- Python `int(...)` on the digit strings produced by the extraction:
succeeds exactly on nonempty all-digit strings. -/
def strToInt (s : String) : Option Int :=
  if s.data ≠ [] ∧ s.data.all Char.isDigit then some (digitsToNat s.data)
  else none

/-- Embedding of line 131, `packing_df[ItemCountCol].astype(int)`: converts
every cell of the column to an integer, and fails (pandas raises a
`ValueError`) as soon as one cell is NaN or not an integer literal.  The
raise is modelled as `none` for the whole column. -/
def astypeIntCol (col : List (Option String)) : Option (List Int) :=
  col.mapM (fun cell => cell.bind strToInt)

/-! ## Forward fill (src/app.py, lines 22-27) -/

/-- One pandas column of nullable cells, forward-filled while carrying the
most recent non-null value (`acc`).  `ffillFrom none` is exactly
`Series.ffill()`: each NaN cell inherits the nearest preceding non-NaN
value, and leading NaN cells stay NaN. -/
def ffillFrom (acc : Option α) : List (Option α) → List (Option α)
  | [] => []
  | some v :: xs => some v :: ffillFrom (some v) xs
  | none :: xs => acc :: ffillFrom acc xs

/-- Embedding of `route_df[fill_cols].ffill()` for one column. -/
def ffillCol (col : List (Option α)) : List (Option α) :=
  ffillFrom none col

/-- Raw route row as read from the manifest, before forward filling: the
five sparse fields of `fill_cols` (line 23) are nullable. -/
structure RawRouteRow where
  route : Option String
  driver : Option String
  stop : Option String
  address : Option String
  shippingName : Option String
  items : String
  deriving Repr, DecidableEq

/-- Column projections of a raw route table, used to state the fill
invariant exactly as pandas applies `ffill` column by column. -/
def fillRoutes (rows : List RawRouteRow) : List RawRouteRow :=
  let rt := ffillCol (rows.map (·.route))
  let dr := ffillCol (rows.map (·.driver))
  let st := ffillCol (rows.map (·.stop))
  let ad := ffillCol (rows.map (·.address))
  let sh := ffillCol (rows.map (·.shippingName))
  (List.range rows.length).map (fun i =>
    { route := (rt.get? i).join
      driver := (dr.get? i).join
      stop := (st.get? i).join
      address := (ad.get? i).join
      shippingName := (sh.get? i).join
      items := ((rows.get? i).map (·.items)).getD "" })

/-- Concrete raw route row whose Driver cell is blank from the first row
on. -/
def blankDriverRow : RawRouteRow :=
  { route := some "R1", driver := none, stop := some "1",
    address := some "1 Main St", shippingName := some "Ann", items := "2  X" }

/-! ## Catalog (src/app.py, lines 30-33) -/

/-- Raw catalog row restricted to the four selected columns of line 31;
the Tags cell may be empty (pandas NaN). -/
structure CatalogRaw where
  title : String
  tags : Option String
  variantSKU : Option String
  vendor : Option String
  deriving Repr, DecidableEq

/-- Parsed catalog row after lines 31-33: the tag is present, the product
type has been computed from it, and the join key `Lineitem name` is a copy
of the title. -/
structure CatalogEntry where
  title : String
  tags : String
  variantSKU : Option String
  vendor : Option String
  productType : String
  lineitemName : String
  deriving Repr, DecidableEq

/-- Catalog row built from a raw row whose tag is `t`. -/
def catalogEntryOf (r : CatalogRaw) (t : String) : CatalogEntry :=
  { title := r.title, tags := t, variantSKU := r.variantSKU, vendor := r.vendor,
    productType := determine_product_type t, lineitemName := r.title }

/-- Embedding of lines 31-33: select the four columns, drop the rows whose
Tags cell is empty, compute the product type, copy the title into the join
key column. -/
def parseCatalog (rows : List CatalogRaw) : List CatalogEntry :=
  rows.filterMap (fun r => r.tags.map (catalogEntryOf r))

/-! ## Merge (src/app.py, line 40) -/

/-- Route row at the point of the merge of line 40 (columns renamed, sparse
fields filled, item name and item count extracted). -/
structure RouteRow where
  route : Option String
  driver : Option String
  stop : Option String
  address : Option String
  shippingName : Option String
  items : String
  totalItems : Option Int
  note : Option String
  time : Option Int
  dist : Option Int
  lineitemName : String
  itemCount : Option String
  deriving Repr, DecidableEq

/-- Result row of the left merge: the route columns, plus the catalog
columns which are all present (one matching catalog row) or all NaN (no
match). -/
structure MergedRow where
  routeRow : RouteRow
  catalog : Option CatalogEntry
  deriving Repr, DecidableEq

/-- Catalog rows whose join key equals the given item name. -/
def matchesFor (plist : List CatalogEntry) (name : String) : List CatalogEntry :=
  plist.filter (fun e => e.lineitemName == name)

/-- Embedding of line 40, `pd.merge(route_df, df_plist, on=key, how=left)`:
each route row is emitted once per matching catalog row, keeping the left
order, and once with empty catalog columns when nothing matches. -/
def mergeRoutes (routes : List RouteRow) (plist : List CatalogEntry) : List MergedRow :=
  routes.flatMap (fun r =>
    match matchesFor plist r.lineitemName with
    | [] => [{ routeRow := r, catalog := none }]
    | ms => ms.map (fun e => { routeRow := r, catalog := some e }))

/-! ## Claim C4 -/

/-- Concrete route row used in counterexamples: item name "X", item count
"2". -/
def cxRouteRow : RouteRow :=
  { route := some "R1", driver := some "Dan", stop := some "1",
    address := some "1 Main St", shippingName := some "Ann", items := "2  X",
    totalItems := some 1, note := none, time := some 10, dist := some 3,
    lineitemName := "X", itemCount := some "2" }

/-! ## Formatter (src/app.py, format_excel_file, lines 100-117) -/

/-- Cell alignment as set by openpyxl `Alignment(horizontal, vertical)`. -/
structure CellAlignment where
  horizontal : Option String
  vertical : Option String
  deriving Repr, DecidableEq

/-- Cell border: the style of each of the four sides. -/
structure CellBorder where
  left : Option String
  right : Option String
  top : Option String
  bottom : Option String
  deriving Repr, DecidableEq

/-- One spreadsheet cell: a nullable text value plus its style. -/
structure Cell where
  value : Option String
  alignment : CellAlignment
  border : CellBorder
  deriving Repr, DecidableEq

/-- One worksheet: a grid of cells and the freeze-panes anchor. -/
structure Worksheet where
  cells : List (List Cell)
  freezePanes : Option String
  deriving Repr, DecidableEq

/-- A workbook is its list of worksheets. -/
structure Workbook where
  worksheets : List Worksheet
  deriving Repr, DecidableEq

/-- The thin border built on lines 104-107. -/
def thin_border : CellBorder :=
  { left := some "thin", right := some "thin",
    top := some "thin", bottom := some "thin" }

/-- Embedding of the per-cell loop body of lines 109-112. -/
def formatCell (c : Cell) : Cell :=
  { c with alignment := { horizontal := some "left", vertical := some "center" },
           border := thin_border }

/-- Embedding of the per-sheet loop of lines 103-114: format every cell of
every row, then freeze the first row (anchor cell A2). -/
def formatWorksheet (ws : Worksheet) : Worksheet :=
  { cells := ws.cells.map (fun row => row.map formatCell),
    freezePanes := some "A2" }

/-- Embedding of `format_excel_file` (lines 100-117): apply the formatting
pass to every worksheet of the workbook. -/
def format_excel_file (wb : Workbook) : Workbook :=
  { worksheets := wb.worksheets.map formatWorksheet }

/-! ## Final column selection (src/app.py, lines 42-54) -/

/-- Route table row after line 54: the eleven columns of `final_cols`. -/
structure FinalRouteRow where
  driver : Option String
  stop : Option String
  shippingName : Option String
  address : Option String
  count : Option String
  itemCount : Option String
  lineitemName : String
  totalItems : Option Int
  note : Option String
  time : Option Int
  dist : Option Int
  deriving Repr, DecidableEq

/-- Embedding of lines 43 and 46-54 applied to one merged row: derive the
display `Count` column and keep the eleven final columns (the catalog
columns brought in by the merge are dropped again here). -/
def finalizeRow (m : MergedRow) : FinalRouteRow :=
  { driver := m.routeRow.driver, stop := m.routeRow.stop,
    shippingName := m.routeRow.shippingName, address := m.routeRow.address,
    count := countFieldOf m.routeRow.itemCount,
    itemCount := m.routeRow.itemCount, lineitemName := m.routeRow.lineitemName,
    totalItems := m.routeRow.totalItems, note := m.routeRow.note,
    time := m.routeRow.time, dist := m.routeRow.dist }

/-- Merge-and-select part of `process_data` (lines 40-54). -/
def process_data (routes : List RouteRow) (plist : List CatalogEntry) :
    List FinalRouteRow :=
  (mergeRoutes routes plist).map finalizeRow

/-! ## Grouping (the pandas `groupby` used on lines 69, 86 and 132) -/

/-- Boolean string order backing the sorted group keys. -/
def strLeB (a b : String) : Bool := decide (a ≤ b)

/-- Distinct keys in ascending order: the key order of pandas `groupby`
with its default sorting. -/
def sortedKeys (ks : List String) : List String :=
  ks.dedup.mergeSort strLeB

/-- Embedding of `df.groupby(column)` over a nullable key column: one group
per distinct non-null key, keys ascending, each group holding the rows
carrying that key in their original order (rows with a null key are
dropped, as pandas does). -/
def pyGroupBy (key : α → Option String) (rows : List α) :
    List (String × List α) :=
  (sortedKeys (rows.filterMap key)).map
    (fun d => (d, rows.filter (fun r => key r == some d)))

/-! ## Routing workbook (src/app.py, create_routing_file, lines 66-81) -/

/-- Pandas column sum: NaN cells are skipped, the empty column sums to
zero. -/
def psum (cells : List (Option Int)) : Int :=
  (cells.filterMap id).sum

/-- One row of a routing sheet, in the column order of line 70. -/
structure RoutingSheetRow where
  address : Option String
  count : Option String
  lineitemName : Option String
  totalItems : Option Int
  note : Option String
  time : Option Int
  dist : Option Int
  stop : Option String
  deriving Repr, DecidableEq

/-- Data row of a routing sheet: the selected columns of one route row. -/
def routingDataRow (r : FinalRouteRow) : RoutingSheetRow :=
  { address := r.address, count := r.count, lineitemName := some r.lineitemName,
    totalItems := r.totalItems, note := r.note, time := r.time, dist := r.dist,
    stop := r.stop }

/-- Total row appended on lines 74-75: the three numeric columns hold the
column sums of the group, every other cell is empty. -/
def routingTotalRow (g : List FinalRouteRow) : RoutingSheetRow :=
  { address := none, count := none, lineitemName := none,
    totalItems := some (psum (g.map (·.totalItems))), note := none,
    time := some (psum (g.map (·.time))), dist := some (psum (g.map (·.dist))),
    stop := none }

/-- Embedding of `create_routing_file` (lines 66-81): one sheet per driver
group, each sheet being the group rows followed by the total row; the
sheet name is the driver. -/
def create_routing_file (rows : List FinalRouteRow) :
    List (String × List RoutingSheetRow) :=
  (pyGroupBy (·.driver) rows).map
    (fun g => (g.1, g.2.map routingDataRow ++ [routingTotalRow g.2]))

/-! ## Packing table (src/app.py, lines 130-135) -/

/-- Aggregated packing row after lines 132-133: one row per (driver, item
name) group with the summed count and the derived `Count_New` display
value (empty unless the summed count exceeds one). -/
structure PackingAgg where
  driver : String
  lineitemName : String
  count : Int
  countNew : Option Int
  deriving Repr, DecidableEq

/-- Packing row after the catalog merge of line 134. -/
structure PackingRow where
  driver : String
  lineitemName : String
  count : Int
  countNew : Option Int
  title : Option String
  tags : Option String
  variantSKU : Option String
  vendor : Option String
  productType : Option String
  deriving Repr, DecidableEq

/-- Boolean order on the pair (Driver, Lineitem name), lexicographic. -/
def pairLeB (a b : String × String) : Bool :=
  decide (toLex a ≤ toLex b)

/-- Distinct (Driver, Lineitem name) keys in ascending lexicographic order,
as produced by the two-key `groupby` of line 132. -/
def sortedPairKeys (ks : List (String × String)) : List (String × String) :=
  ks.dedup.mergeSort pairLeB

/-- Embedding of lines 132-133 over the base triples
(driver, item name, integer count): group by the key pair, sum the counts
inside each group, then derive `Count_New`. -/
def groupSum (base : List (String × String × Int)) : List PackingAgg :=
  (sortedPairKeys (base.map (fun t => (t.1, t.2.1)))).map (fun k =>
    let c := ((base.filter (fun t => (t.1, t.2.1) == k)).map (fun t => t.2.2)).sum
    { driver := k.1, lineitemName := k.2, count := c,
      countNew := if c > 1 then some c else none })

/-- Packing row built from an aggregate and an optional matching catalog
entry (all catalog columns NaN when there is no match). -/
def packMergeRow (a : PackingAgg) (e : Option CatalogEntry) : PackingRow :=
  { driver := a.driver, lineitemName := a.lineitemName, count := a.count,
    countNew := a.countNew,
    title := e.map (·.title), tags := e.map (·.tags),
    variantSKU := e.bind (·.variantSKU), vendor := e.bind (·.vendor),
    productType := e.map (·.productType) }

/-- Embedding of the left merge of line 134, on the item name. -/
def packMerge (aggs : List PackingAgg) (plist : List CatalogEntry) :
    List PackingRow :=
  aggs.flatMap (fun a =>
    match matchesFor plist a.lineitemName with
    | [] => [packMergeRow a none]
    | ms => ms.map (fun e => packMergeRow a (some e)))

/-- Sort key of line 135: driver, then product type, then SKU, then item
name, each nullable column ordering its NaN cells last as pandas does. -/
def packKey (p : PackingRow) :
    Lex (String × Lex (Lex (Bool × String) × Lex (Lex (Bool × String) × String))) :=
  toLex (p.driver,
    toLex (toLex (p.productType.isNone, p.productType.getD ""),
      toLex (toLex (p.variantSKU.isNone, p.variantSKU.getD ""), p.lineitemName)))

/-- Boolean comparison backing `sort_values` on line 135. -/
def packLeB (a b : PackingRow) : Bool :=
  decide (packKey a ≤ packKey b)

/-- Parsed integer item count of a final route row (zero stands in for the
cells on which the cast of line 131 would raise; the packing pipeline is
only defined when no such cell exists). -/
def rowCountInt (r : FinalRouteRow) : Int :=
  (r.itemCount.bind strToInt).getD 0

/-- Embedding of lines 130-135: cast the item counts of all rows to
integers (`none` when the cast raises), group the triples
(driver, item name, count) by (driver, item name) with summed counts,
derive `Count_New`, left-merge with the parsed catalog and sort. -/
def buildPacking (rows : List FinalRouteRow) (plist : List CatalogEntry) :
    Option (List PackingRow) :=
  (astypeIntCol (rows.map (·.itemCount))).map (fun counts =>
    (packMerge (groupSum ((rows.zip counts).filterMap (fun rc =>
      rc.1.driver.map (fun d => (d, rc.1.lineitemName, rc.2))))) plist).mergeSort
      packLeB)

/-- Base triples (driver, item name, parsed count) of the packing pipeline,
one per input row with a non-null driver; this is what the zip inside
`buildPacking` produces once the integer cast has succeeded. -/
def baseOf (rows : List FinalRouteRow) : List (String × String × Int) :=
  rows.filterMap (fun r =>
    r.driver.map (fun d => (d, r.lineitemName, rowCountInt r)))

/-! ## Packing workbook (src/app.py, create_packing_file, lines 83-98) -/

/-- One row of a packing sheet, in the column order of line 87. -/
structure PackingSheetRow where
  productType : Option String
  countNew : Option Int
  lineitemName : Option String
  count : Option Int
  variantSKU : Option String
  vendor : Option String
  deriving Repr, DecidableEq

/-- Data row of a packing sheet. -/
def packingDataRow (p : PackingRow) : PackingSheetRow :=
  { productType := p.productType, countNew := p.countNew,
    lineitemName := some p.lineitemName, count := some p.count,
    variantSKU := p.variantSKU, vendor := p.vendor }

/-- Total row appended on lines 91-92: only the Count column is summed. -/
def packingTotalRow (g : List PackingRow) : PackingSheetRow :=
  { productType := none, countNew := none, lineitemName := none,
    count := some ((g.map (·.count)).sum), variantSKU := none, vendor := none }

/-- Embedding of `create_packing_file` (lines 83-98): one sheet per driver
group, each sheet being the group rows followed by the total row. -/
def create_packing_file (rows : List PackingRow) :
    List (String × List PackingSheetRow) :=
  (pyGroupBy (fun p => some p.driver) rows).map
    (fun g => (g.1, g.2.map packingDataRow ++ [packingTotalRow g.2]))

/-- Total row that the specification prescribes for a routing sheet: the
numeric columns hold the column sums of the data rows of that very sheet,
every other cell is blank.  Stated over sheet rows (not over the source
group) so that the report builder can be compared against it. -/
def routingTotalOfSheet (data : List RoutingSheetRow) : RoutingSheetRow :=
  { address := none, count := none, lineitemName := none,
    totalItems := some (psum (data.map (·.totalItems))), note := none,
    time := some (psum (data.map (·.time))),
    dist := some (psum (data.map (·.dist))), stop := none }

/-- Total row that the specification prescribes for a packing sheet: the
Count column holds the column sum of the data rows of that sheet, every
other cell is blank. -/
def packingTotalOfSheet (data : List PackingSheetRow) : PackingSheetRow :=
  { productType := none, countNew := none, lineitemName := none,
    count := some (psum (data.map (·.count))), variantSKU := none,
    vendor := none }

/-- Catalog entry titled "A" (first duplicate). -/
def cxCatA1 : CatalogEntry :=
  { title := "A", tags := "常温类", variantSKU := some "S1", vendor := some "V",
    productType := "general", lineitemName := "A" }

/-- Catalog entry titled "A" (second duplicate). -/
def cxCatA2 : CatalogEntry :=
  { title := "A", tags := "冰冻冷藏类", variantSKU := some "S2",
    vendor := some "V", productType := "cool", lineitemName := "A" }

/-- Catalog with a duplicated title "A". -/
def cxDupCatalog : List CatalogEntry := [cxCatA1, cxCatA2]

/-- Merged route row for driver D and item "A" with count 2. -/
def cxFanRow : FinalRouteRow :=
  { driver := some "D", stop := some "1", shippingName := some "Ann",
    address := some "1 Main St", count := some "2", itemCount := some "2",
    lineitemName := "A", totalItems := some 1, note := none,
    time := some 10, dist := some 3 }

/-- The merged data produced when the route row for item "A" is fanned out
by the duplicated catalog title: two identical merged rows. -/
def cxFanRows : List FinalRouteRow := [cxFanRow, cxFanRow]

/-! ## Claim C1 -/

/-- Concrete final route row used in witnesses (driver Dan, item X,
count 2). -/
def cxRouteRowToFinal : FinalRouteRow :=
  { driver := some "Dan", stop := some "1", shippingName := some "Ann",
    address := some "1 Main St", count := some "2", itemCount := some "2",
    lineitemName := "X", totalItems := some 1, note := none,
    time := some 10, dist := some 3 }

/-- Concrete packing row used in witnesses. -/
def cxPackingRowD : PackingRow :=
  { driver := "Dan", lineitemName := "X", count := 2, countNew := some 2,
    title := some "X", tags := some "常温类", variantSKU := some "SKU1",
    vendor := some "V", productType := some "general" }


/-- C1 counterexample: the source computes the item name as the characters
from index 3 on, so for `Items = "2Organic Apples"` the extracted name is
"ganic Apples", not "Organic Apples" as the claim states. -/
theorem C1_name_not_trailing_description :
    lineitemNameOf "2Organic Apples" = "ganic Apples" ∧
    lineitemNameOf "2Organic Apples" ≠ "Organic Apples" := by
  constructor
  · rfl
  · decide

/-- C1 (amended): for `Items = "2Organic Apples"` the parser extracts item
count "2" (the first digit run inside the first three characters) and item
name "ganic Apples" (the characters from index 3 on, not the entire
trailing description), and the merged `Count` field is "2" since the count
is not "1"; for `Items = "1Free Gift"` the `Count` field is the empty
string. -/
theorem C1_item_extraction_example :
    itemCountOf "2Organic Apples" = some "2" ∧
    lineitemNameOf "2Organic Apples" = "ganic Apples" ∧
    countFieldOf (itemCountOf "2Organic Apples") = some "2" ∧
    itemCountOf "1Free Gift" = some "1" ∧
    countFieldOf (itemCountOf "1Free Gift") = some "" := by
  refine ⟨rfl, rfl, ?_, rfl, ?_⟩ <;> decide

/-! ## Claim C2 -/

/-- C2: `determine_product_type` is a pure total deterministic function on
all text input (including the empty string): its result is always one of
the four categories, equal inputs give equal outputs, and the keyword
groups are tested against the lowercased tag in fixed priority order —
the vegetable/subscription keywords win over the frozen keyword, which
wins over the ambient keyword, and a tag matching none of them is
classified "other". -/
theorem C2_classifier_total_deterministic_priority (tag : String) :
    (determine_product_type tag = "vege & fruit" ∨
     determine_product_type tag = "cool" ∨
     determine_product_type tag = "general" ∨
     determine_product_type tag = "other") ∧
    (∀ tag2 : String, tag = tag2 →
      determine_product_type tag = determine_product_type tag2) ∧
    ((strContains (pyLower tag) "蔬菜水果类" ||
        strContains (pyLower tag) "独家订阅包") = true →
      determine_product_type tag = "vege & fruit") ∧
    ((strContains (pyLower tag) "蔬菜水果类" ||
        strContains (pyLower tag) "独家订阅包") = false →
      strContains (pyLower tag) "冰冻冷藏类" = true →
      determine_product_type tag = "cool") ∧
    ((strContains (pyLower tag) "蔬菜水果类" ||
        strContains (pyLower tag) "独家订阅包") = false →
      strContains (pyLower tag) "冰冻冷藏类" = false →
      strContains (pyLower tag) "常温类" = true →
      determine_product_type tag = "general") ∧
    ((strContains (pyLower tag) "蔬菜水果类" ||
        strContains (pyLower tag) "独家订阅包") = false →
      strContains (pyLower tag) "冰冻冷藏类" = false →
      strContains (pyLower tag) "常温类" = false →
      determine_product_type tag = "other") := by
  unfold determine_product_type
  refine ⟨?_, ?_, ?_, ?_, ?_, ?_⟩
  · by_cases h1 : (strContains (pyLower tag) "蔬菜水果类" ||
        strContains (pyLower tag) "独家订阅包") = true
    · simp [h1]
    · by_cases h2 : strContains (pyLower tag) "冰冻冷藏类" = true
      · simp [h1, h2]
      · by_cases h3 : strContains (pyLower tag) "常温类" = true
        · simp [h1, h2, h3]
        · simp [h1, h2, h3]
  · intro tag2 h; rw [h]
  · intro h1; simp [h1]
  · intro h1 h2; simp [h1, h2]
  · intro h1 h2 h3; simp [h1, h2, h3]
  · intro h1 h2 h3; simp [h1, h2, h3]

/-- C2 witness: the theorem applied to a concrete mixed tag containing the
frozen keyword together with the ambient keyword classifies as "cool"
(priority of the earlier group). -/
theorem C2_classifier_witness :
    determine_product_type "常温类 冰冻冷藏类" = "cool" :=
  (C2_classifier_total_deterministic_priority "常温类 冰冻冷藏类").2.2.2.1
    (by decide) (by decide)

/-! ## Claim C3 -/

/-- C3: a route row whose item field has a non-numeric three-character
prefix yields a missing (`none` / NaN) item count, and the packing-side
integer cast of a column containing that missing count fails (the Python
`astype(int)` call raises) instead of propagating the null into the sum:
the code crashes where the claim requires null propagation. -/
theorem C3_nonnumeric_prefix_crashes_cast :
    itemCountOf "xyzWidget" = none ∧
    astypeIntCol [itemCountOf "xyzWidget", some "2"] = none := by
  constructor
  · rfl
  · rfl

/-- Every cell of `ffillFrom (some v) xs` is non-null. -/
theorem ffillFrom_some_isSome (v : α) (xs : List (Option α)) :
    ∀ x ∈ ffillFrom (some v) xs, x.isSome := by
  induction xs generalizing v with
  | nil => intro x hx; cases hx
  | cons hd tl ih =>
      intro x hx
      cases hd with
      | some w =>
          simp only [ffillFrom, List.mem_cons] at hx
          rcases hx with h | h
          · rw [h]; rfl
          · exact ih w x h
      | none =>
          simp only [ffillFrom, List.mem_cons] at hx
          rcases hx with h | h
          · rw [h]; rfl
          · exact ih v x h

/-- When the first cell of a column is non-null, the forward-filled column
has no null cell at all. -/
theorem ffillCol_no_blank (v : α) (rest : List (Option α)) :
    ∀ x ∈ ffillCol (some v :: rest), x.isSome := by
  intro x hx
  simp only [ffillCol, ffillFrom, List.mem_cons] at hx
  rcases hx with h | h
  · rw [h]; rfl
  · exact ffillFrom_some_isSome v rest x h

/-- Forward filling keeps the column length. -/
theorem ffillFrom_length (acc : Option α) (xs : List (Option α)) :
    (ffillFrom acc xs).length = xs.length := by
  induction xs generalizing acc with
  | nil => rfl
  | cons hd tl ih => cases hd <;> simp [ffillFrom, ih]

/-- Cell access into a forward-filled column whose first cell is non-null
always yields a non-null value. -/
theorem ffillCol_get_join_isSome (v : α) (rest : List (Option α)) (i : Nat)
    (hi : i < (some v :: rest).length) :
    (((ffillCol (some v :: rest)).get? i).join).isSome := by
  have hlen : (ffillCol (some v :: rest)).length = (some v :: rest).length :=
    ffillFrom_length none _
  have hi2 : i < (ffillCol (some v :: rest)).length := by rw [hlen]; exact hi
  rw [List.get?_eq_get hi2]
  have hmem : (ffillCol (some v :: rest)).get ⟨i, hi2⟩ ∈ ffillCol (some v :: rest) :=
    List.get_mem _ _ hi2
  have hs := ffillCol_no_blank v rest _ hmem
  obtain ⟨w, hw⟩ := Option.isSome_iff_exists.mp hs
  rw [hw]; rfl

/-! ## Claim C5 -/

/-- C5 (amended): after the forward fill of lines 22-24, when the first row
of the input is non-blank in each of the five sparse fields, no row of the
filled table is blank in any of Route, Driver, Stop, Address or
Shipping name. -/
theorem C5_filled_rows_no_blanks (first : RawRouteRow) (rest : List RawRouteRow)
    (h1 : first.route.isSome = true) (h2 : first.driver.isSome = true)
    (h3 : first.stop.isSome = true) (h4 : first.address.isSome = true)
    (h5 : first.shippingName.isSome = true) :
    ∀ r ∈ fillRoutes (first :: rest),
      r.route.isSome = true ∧ r.driver.isSome = true ∧ r.stop.isSome = true ∧
      r.address.isSome = true ∧ r.shippingName.isSome = true := by
  intro r hr
  simp only [fillRoutes, List.mem_map, List.mem_range] at hr
  obtain ⟨i, hi, hf⟩ := hr
  subst hf
  obtain ⟨v1, e1⟩ := Option.isSome_iff_exists.mp h1
  obtain ⟨v2, e2⟩ := Option.isSome_iff_exists.mp h2
  obtain ⟨v3, e3⟩ := Option.isSome_iff_exists.mp h3
  obtain ⟨v4, e4⟩ := Option.isSome_iff_exists.mp h4
  obtain ⟨v5, e5⟩ := Option.isSome_iff_exists.mp h5
  refine ⟨?_, ?_, ?_, ?_, ?_⟩
  · show (((ffillCol ((first :: rest).map (·.route))).get? i).join).isSome = true
    rw [List.map_cons, e1]
    exact ffillCol_get_join_isSome v1 _ i (by simpa using hi)
  · show (((ffillCol ((first :: rest).map (·.driver))).get? i).join).isSome = true
    rw [List.map_cons, e2]
    exact ffillCol_get_join_isSome v2 _ i (by simpa using hi)
  · show (((ffillCol ((first :: rest).map (·.stop))).get? i).join).isSome = true
    rw [List.map_cons, e3]
    exact ffillCol_get_join_isSome v3 _ i (by simpa using hi)
  · show (((ffillCol ((first :: rest).map (·.address))).get? i).join).isSome = true
    rw [List.map_cons, e4]
    exact ffillCol_get_join_isSome v4 _ i (by simpa using hi)
  · show (((ffillCol ((first :: rest).map (·.shippingName))).get? i).join).isSome = true
    rw [List.map_cons, e5]
    exact ffillCol_get_join_isSome v5 _ i (by simpa using hi)

/-- C5 counterexample: the unconditional reading — after fill no row has a
blank value in these fields unless the entire input is empty — is false:
a nonempty input whose Driver column is entirely blank keeps its blank
after forward filling. -/
theorem C5_counterexample :
    ([blankDriverRow] : List RawRouteRow) ≠ [] ∧
    (fillRoutes [blankDriverRow]).map (·.driver) = [none] := by
  constructor
  · decide
  · rfl

/-- C5 witness: the main theorem applied to a concrete two-row table whose
first row is fully populated and whose second row is blank in all five
sparse fields: no blank survives the fill. -/
theorem C5_filled_rows_no_blanks_witness :
    ((fillRoutes
      [{ route := some "R1", driver := some "Dan", stop := some "1",
         address := some "1 Main St", shippingName := some "Ann", items := "2  X" },
       { route := none, driver := none, stop := none,
         address := none, shippingName := none, items := "1  Y" }]).all
      (fun r => r.route.isSome && r.driver.isSome && r.stop.isSome &&
        r.address.isSome && r.shippingName.isSome)) = true := by
  rw [List.all_eq_true]
  intro r hr
  have h := C5_filled_rows_no_blanks
    { route := some "R1", driver := some "Dan", stop := some "1",
      address := some "1 Main St", shippingName := some "Ann", items := "2  X" }
    [{ route := none, driver := none, stop := none,
       address := none, shippingName := none, items := "1  Y" }]
    rfl rfl rfl rfl rfl r hr
  simp [h.1, h.2.1, h.2.2.1, h.2.2.2.1, h.2.2.2.2]

/-- Output size of the merge, row by row: each route row contributes one
output row per match, at least one. -/
theorem mergeRoutes_length (routes : List RouteRow) (plist : List CatalogEntry) :
    (mergeRoutes routes plist).length =
      (routes.map (fun r => max 1 (matchesFor plist r.lineitemName).length)).sum := by
  induction routes with
  | nil => rfl
  | cons r rs ih =>
      simp only [mergeRoutes, List.flatMap_cons, List.length_append, List.map_cons,
        List.sum_cons] at ih ⊢
      rw [ih]
      congr 1
      cases hm : matchesFor plist r.lineitemName with
      | nil => simp
      | cons e es => simp [Nat.max_eq_right, Nat.succ_le_succ]

/-- Sum of a list of naturals each at least one is at least the length. -/
theorem length_le_sum_of_one_le (l : List Nat) (h : ∀ x ∈ l, 1 ≤ x) :
    l.length ≤ l.sum := by
  induction l with
  | nil => simp
  | cons x xs ih =>
      simp only [List.length_cons, List.sum_cons]
      have hx := h x (List.mem_cons_self x xs)
      have hxs := ih (fun y hy => h y (List.mem_cons_of_mem x hy))
      omega

/-- Sum of a list of naturals each at least one equals the length exactly
when every element is one. -/
theorem sum_eq_length_iff (l : List Nat) (h : ∀ x ∈ l, 1 ≤ x) :
    l.sum = l.length ↔ ∀ x ∈ l, x = 1 := by
  induction l with
  | nil => simp
  | cons x xs ih =>
      simp only [List.sum_cons, List.length_cons, List.mem_cons]
      have hx := h x (List.mem_cons_self x xs)
      have hxs : ∀ y ∈ xs, 1 ≤ y := fun y hy => h y (List.mem_cons_of_mem x hy)
      have hlen := length_le_sum_of_one_le xs hxs
      constructor
      · intro he
        have hx1 : x = 1 := by omega
        have hs : xs.sum = xs.length := by omega
        intro y hy
        rcases hy with hy | hy
        · rw [hy]; exact hx1
        · exact ((ih hxs).mp hs) y hy
      · intro hall
        have hx1 : x = 1 := hall x (Or.inl rfl)
        have hs : xs.sum = xs.length := (ih hxs).mpr (fun y hy => hall y (Or.inr hy))
        omega

/-- Projection helper: fanning one route row over its matches and keeping
only the route part is replication. -/
theorem map_routeRow_fan (r : RouteRow) (ms : List CatalogEntry) :
    (ms.map (fun e => ({ routeRow := r, catalog := some e } : MergedRow))).map
        (·.routeRow) = List.replicate ms.length r := by
  induction ms with
  | nil => rfl
  | cons e es ih => simp [ih, List.replicate_succ]

/-- C4 counterexample: with one route row and an empty catalog the merge
output has exactly as many rows as the input, yet the item name matches
zero (not exactly one) catalog titles — so the claimed equivalence
"equality iff every item name matches exactly one catalog title" is
false. -/
theorem C4_counterexample :
    (mergeRoutes [cxRouteRow] []).length = ([cxRouteRow] : List RouteRow).length ∧
    ¬ (matchesFor [] cxRouteRow.lineitemName).length = 1 := by
  constructor
  · rfl
  · decide

/-- C4 (amended): the merge is a left outer join — the output row count is
at least the input route row count, with equality iff every route row
matches at most one catalog title; stripping the catalog part of the
output replicates every route row once per match (once with empty catalog
columns when there is no match), in input order. -/
theorem C4_left_join_cardinality (routes : List RouteRow) (plist : List CatalogEntry) :
    routes.length ≤ (mergeRoutes routes plist).length ∧
    ((mergeRoutes routes plist).length = routes.length ↔
      ∀ r ∈ routes, (matchesFor plist r.lineitemName).length ≤ 1) ∧
    (mergeRoutes routes plist).map (·.routeRow) =
      routes.flatMap (fun r =>
        List.replicate (max 1 (matchesFor plist r.lineitemName).length) r) ∧
    (∀ r ∈ routes, matchesFor plist r.lineitemName = [] →
      ({ routeRow := r, catalog := none } : MergedRow) ∈ mergeRoutes routes plist) := by
  have hone : ∀ x ∈ routes.map (fun r => max 1 (matchesFor plist r.lineitemName).length),
      1 ≤ x := by
    intro x hx
    simp only [List.mem_map] at hx
    obtain ⟨r, _, hr⟩ := hx
    omega
  refine ⟨?_, ?_, ?_, ?_⟩
  · rw [mergeRoutes_length]
    calc routes.length
        = (routes.map (fun r => max 1 (matchesFor plist r.lineitemName).length)).length := by
          simp
      _ ≤ (routes.map (fun r => max 1 (matchesFor plist r.lineitemName).length)).sum :=
          length_le_sum_of_one_le _ hone
  · rw [mergeRoutes_length]
    have hlen : routes.length =
        (routes.map (fun r => max 1 (matchesFor plist r.lineitemName).length)).length := by
      simp
    rw [hlen, sum_eq_length_iff _ hone]
    constructor
    · intro hall r hr
      have := hall _ (List.mem_map_of_mem _ hr)
      omega
    · intro hall x hx
      simp only [List.mem_map] at hx
      obtain ⟨r, hr, hrx⟩ := hx
      have := hall r hr
      omega
  · clear hone
    induction routes with
    | nil => rfl
    | cons r rs ih =>
        simp only [mergeRoutes, List.flatMap_cons, List.map_append] at ih ⊢
        rw [ih]
        congr 1
        cases hm : matchesFor plist r.lineitemName with
        | nil => rfl
        | cons e es =>
            rw [map_routeRow_fan]
            congr 1
            simp [Nat.max_eq_right, Nat.succ_le_succ]
  · intro r hr hm
    simp only [mergeRoutes, List.mem_flatMap]
    exact ⟨r, hr, by rw [hm]; exact List.mem_singleton_self _⟩

/-- C4 witness: the amended theorem applied to one concrete route row and a
one-entry catalog matching it. -/
theorem C4_left_join_cardinality_witness :
    ([cxRouteRow] : List RouteRow).length ≤
      (mergeRoutes [cxRouteRow] [catalogEntryOf ⟨"X", some "常温类", some "SKU1", some "V"⟩ "常温类"]).length :=
  (C4_left_join_cardinality [cxRouteRow]
    [catalogEntryOf ⟨"X", some "常温类", some "SKU1", some "V"⟩ "常温类"]).1

/-! ## Claim C8 -/

/-- C8: `parseCatalog` keeps exactly the rows whose tag is present (rows
lacking a tag are absent, tagged rows all survive, so the output length is
the number of tagged input rows); every output entry carries exactly the
four selected columns of one input row together with a product type
computed from its tag. -/
theorem C8_parseCatalog_spec (rows : List CatalogRaw) :
    (parseCatalog rows).length = (rows.filter (fun r => r.tags.isSome)).length ∧
    (∀ e ∈ parseCatalog rows, ∃ r ∈ rows,
      r.tags = some e.tags ∧ e.title = r.title ∧ e.variantSKU = r.variantSKU ∧
      e.vendor = r.vendor ∧ e.productType = determine_product_type e.tags ∧
      e.lineitemName = r.title) ∧
    (∀ r ∈ rows, ∀ t : String, r.tags = some t →
      catalogEntryOf r t ∈ parseCatalog rows) := by
  refine ⟨?_, ?_, ?_⟩
  · induction rows with
    | nil => rfl
    | cons r rs ih =>
        cases ht : r.tags with
        | none => simpa [parseCatalog, List.filterMap_cons, List.filter_cons, ht]
            using ih
        | some t => simpa [parseCatalog, List.filterMap_cons, List.filter_cons, ht]
            using ih
  · intro e he
    simp only [parseCatalog, List.mem_filterMap] at he
    obtain ⟨r, hr, hre⟩ := he
    cases ht : r.tags with
    | none => rw [ht] at hre; cases hre
    | some t =>
        rw [ht] at hre
        simp only [Option.map_some'] at hre
        rw [Option.some_inj] at hre
        refine ⟨r, hr, ?_⟩
        rw [← hre]
        exact ⟨by rw [ht]; rfl, rfl, rfl, rfl, rfl, rfl⟩
  · intro r hr t ht
    simp only [parseCatalog, List.mem_filterMap]
    exact ⟨r, hr, by rw [ht]; rfl⟩

/-- C8 witness: a two-row catalog where only the first row has a tag parses
to the single entry of the first row. -/
theorem C8_parseCatalog_witness :
    (parseCatalog
      [{ title := "Organic Apples", tags := some "蔬菜水果类",
         variantSKU := some "SKU1", vendor := some "V" },
       { title := "Mystery", tags := none,
         variantSKU := some "SKU2", vendor := some "V" }]).length =
      ([{ title := "Organic Apples", tags := some "蔬菜水果类",
          variantSKU := some "SKU1", vendor := some "V" },
        { title := "Mystery", tags := none,
          variantSKU := some "SKU2", vendor := some "V" }].filter
        (fun r : CatalogRaw => r.tags.isSome)).length :=
  (C8_parseCatalog_spec _).1

/-! ## Claim C9 -/

/-- C9: the formatting pass gives every cell of every sheet left horizontal
alignment, center vertical alignment and a thin border on all four sides,
freezes the first row of every sheet (anchor A2), and leaves every cell
value unchanged (sheet structure and the grid of values are untouched). -/
theorem C9_format_preserves_values (wb : Workbook) :
    ((format_excel_file wb).worksheets.all (fun ws =>
      ws.freezePanes == some "A2" &&
      ws.cells.all (fun row => row.all (fun c =>
        c.alignment == { horizontal := some "left", vertical := some "center" } &&
        c.border == thin_border)))) = true ∧
    (format_excel_file wb).worksheets.map (fun ws =>
        ws.cells.map (fun row => row.map (·.value))) =
      wb.worksheets.map (fun ws => ws.cells.map (fun row => row.map (·.value))) := by
  constructor
  · rw [List.all_eq_true]
    intro ws hws
    obtain ⟨ws0, hws0, rfl⟩ := List.mem_map.mp hws
    rw [Bool.and_eq_true]
    refine ⟨rfl, ?_⟩
    rw [List.all_eq_true]
    intro row hrow
    obtain ⟨row0, hrow0, rfl⟩ := List.mem_map.mp hrow
    rw [List.all_eq_true]
    intro c hc
    obtain ⟨c0, hc0, rfl⟩ := List.mem_map.mp hc
    rfl
  · simp only [format_excel_file, List.map_map]
    apply List.map_congr_left
    intro ws _
    simp only [Function.comp_apply, formatWorksheet, List.map_map]
    apply List.map_congr_left
    intro row _
    simp [formatCell]

/-! ## Group-key order -/

/-- The boolean string order is transitive. -/
theorem strLeB_trans : ∀ a b c : String,
    strLeB a b = true → strLeB b c = true → strLeB a c = true := by
  intro a b c hab hbc
  simp only [strLeB, decide_eq_true_eq] at hab hbc ⊢
  exact le_trans hab hbc

/-- The boolean string order is total. -/
theorem strLeB_total : ∀ a b : String, (strLeB a b || strLeB b a) = true := by
  intro a b
  rcases le_total a b with h | h <;> simp [strLeB, h]

/-- The group keys come out in ascending order. -/
theorem sortedKeys_sorted (ks : List String) :
    (sortedKeys ks).Pairwise (fun a b => strLeB a b = true) :=
  List.sorted_mergeSort strLeB_trans strLeB_total ks.dedup

/-- The group keys are distinct. -/
theorem sortedKeys_nodup (ks : List String) : (sortedKeys ks).Nodup :=
  ((List.mergeSort_perm ks.dedup strLeB).symm).nodup (List.nodup_dedup ks)

/-- A string is a group key exactly when it occurs in the key column. -/
theorem mem_sortedKeys {k : String} {ks : List String} :
    k ∈ sortedKeys ks ↔ k ∈ ks := by
  unfold sortedKeys
  rw [(List.mergeSort_perm ks.dedup strLeB).mem_iff, List.mem_dedup]

/-- Sheet names of the routing workbook are the sorted distinct non-null
drivers of its input. -/
theorem create_routing_file_names (rows : List FinalRouteRow) :
    (create_routing_file rows).map Prod.fst =
      sortedKeys (rows.filterMap (·.driver)) := by
  simp [create_routing_file, pyGroupBy, List.map_map, Function.comp_def]

/-- Sheet names of the packing workbook are the sorted distinct drivers of
its input. -/
theorem filterMap_some_driver (prows : List PackingRow) :
    prows.filterMap (fun p => some p.driver) = prows.map (·.driver) := by
  induction prows with
  | nil => rfl
  | cons p ps ih => simp [List.filterMap_cons, ih]

theorem create_packing_file_names (prows : List PackingRow) :
    (create_packing_file prows).map Prod.fst =
      sortedKeys (prows.map (·.driver)) := by
  simp only [create_packing_file, pyGroupBy, List.map_map, Function.comp_def,
    filterMap_some_driver]
  exact List.map_id _

/-- Non-null membership in the driver column restates membership in the
filter-mapped key list. -/
theorem mem_filterMap_driver {d : String} {rows : List FinalRouteRow} :
    d ∈ rows.filterMap (·.driver) ↔ some d ∈ rows.map (·.driver) := by
  simp only [List.mem_filterMap, List.mem_map]

/-! ## Claim C10 -/

/-- C10: in both workbooks the per-driver sheets are emitted in ascending
sorted driver order with no duplicate sheet, and whenever the two inputs
carry the same set of drivers the two sheet-name sequences are
identical. -/
theorem C10_sheet_order (rows : List FinalRouteRow) (prows : List PackingRow) :
    ((create_routing_file rows).map Prod.fst).Pairwise (fun a b => strLeB a b = true) ∧
    ((create_routing_file rows).map Prod.fst).Nodup ∧
    ((create_packing_file prows).map Prod.fst).Pairwise (fun a b => strLeB a b = true) ∧
    ((create_packing_file prows).map Prod.fst).Nodup ∧
    ((∀ d : String, some d ∈ rows.map (·.driver) ↔ d ∈ prows.map (·.driver)) →
      (create_routing_file rows).map Prod.fst =
        (create_packing_file prows).map Prod.fst) := by
  rw [create_routing_file_names, create_packing_file_names]
  refine ⟨sortedKeys_sorted _, sortedKeys_nodup _, sortedKeys_sorted _,
    sortedKeys_nodup _, ?_⟩
  intro hsame
  have hmem : ∀ d : String,
      d ∈ sortedKeys (rows.filterMap (·.driver)) ↔
        d ∈ sortedKeys (prows.map (·.driver)) := by
    intro d
    rw [mem_sortedKeys, mem_sortedKeys, mem_filterMap_driver]
    exact hsame d
  have hperm : (sortedKeys (rows.filterMap (·.driver))).Perm
      (sortedKeys (prows.map (·.driver))) := by
    apply List.perm_of_nodup_nodup_toFinset_eq (sortedKeys_nodup _) (sortedKeys_nodup _)
    ext d
    simp only [List.mem_toFinset]
    exact hmem d
  have hs1 : List.Sorted (fun a b : String => a ≤ b)
      (sortedKeys (rows.filterMap (·.driver))) :=
    (sortedKeys_sorted _).imp (fun h => by
      simpa [strLeB, decide_eq_true_eq] using h)
  have hs2 : List.Sorted (fun a b : String => a ≤ b)
      (sortedKeys (prows.map (·.driver))) :=
    (sortedKeys_sorted _).imp (fun h => by
      simpa [strLeB, decide_eq_true_eq] using h)
  exact List.eq_of_perm_of_sorted hperm hs1 hs2

/-- C10 witness: routing rows for drivers Bob and Ann produce sheets in the
order Ann, Bob, matching the packing sheets for the same two drivers. -/
theorem C10_sheet_order_witness :
    (create_routing_file
        [{ cxRouteRowToFinal with driver := some "Bob" },
         { cxRouteRowToFinal with driver := some "Ann" }]).map Prod.fst =
      (create_packing_file
        [{ cxPackingRowD with driver := "Ann" },
         { cxPackingRowD with driver := "Bob" }]).map Prod.fst :=
  (C10_sheet_order _ _).2.2.2.2 (fun d => by
    show some d ∈ [some "Bob", some "Ann"] ↔ d ∈ ["Ann", "Bob"]
    simp only [List.mem_cons, List.not_mem_nil, or_false, Option.some.injEq]
    tauto)

/-! ## Packing pipeline infrastructure -/

/-- A successful full-column integer cast computes exactly the parsed count
of each row. -/
theorem astypeIntCol_eq_map (rows : List FinalRouteRow) (counts : List Int)
    (h : astypeIntCol (rows.map (·.itemCount)) = some counts) :
    counts = rows.map rowCountInt := by
  induction rows generalizing counts with
  | nil =>
      simp only [astypeIntCol, List.map_nil, List.mapM_nil, Option.pure_def,
        Option.some.injEq] at h
      simp [← h]
  | cons r rs ih =>
      simp only [astypeIntCol, List.map_cons, List.mapM_cons] at h
      cases hv : r.itemCount.bind strToInt with
      | none => rw [hv] at h; simp at h
      | some v =>
          rw [hv] at h
          cases hrest : List.mapM (fun cell => cell.bind strToInt)
              (rs.map (·.itemCount)) with
          | none => rw [hrest] at h; simp at h
          | some rest =>
              rw [hrest] at h
              simp at h
              rw [← h, List.map_cons]
              congr 1
              · simp [rowCountInt, hv]
              · exact ih rest (by simpa [astypeIntCol] using hrest)

/-- Zipping a list with its own image under a function and filter-mapping
is a plain filter-map. -/
theorem filterMap_zip_map {α β γ : Type} (f : α → β) (g : α × β → Option γ)
    (l : List α) :
    (l.zip (l.map f)).filterMap g = l.filterMap (fun a => g (a, f a)) := by
  induction l with
  | nil => rfl
  | cons a as ih =>
      rw [List.map_cons, List.zip_cons_cons, List.filterMap_cons,
        List.filterMap_cons, ih]

/-- Unfolding of a successful packing build: the result is the sorted merge
of the grouped base triples. -/
theorem buildPacking_some_eq (rows : List FinalRouteRow) (plist : List CatalogEntry)
    (pk : List PackingRow) (hpk : buildPacking rows plist = some pk) :
    pk = (packMerge (groupSum (baseOf rows)) plist).mergeSort packLeB := by
  unfold buildPacking at hpk
  cases hc : astypeIntCol (rows.map (·.itemCount)) with
  | none => rw [hc] at hpk; cases hpk
  | some counts =>
      rw [hc] at hpk
      simp only [Option.map_some', Option.some.injEq] at hpk
      have hcounts := astypeIntCol_eq_map rows counts hc
      subst hcounts
      rw [filterMap_zip_map rowCountInt _ rows] at hpk
      exact hpk.symm

/-- The distinct pair keys of the two-column grouping are distinct. -/
theorem sortedPairKeys_nodup (ks : List (String × String)) :
    (sortedPairKeys ks).Nodup :=
  ((List.mergeSort_perm ks.dedup pairLeB).symm).nodup (List.nodup_dedup ks)

/-- A pair is a group key exactly when it occurs in the key columns. -/
theorem mem_sortedPairKeys {k : String × String} {ks : List (String × String)} :
    k ∈ sortedPairKeys ks ↔ k ∈ ks := by
  unfold sortedPairKeys
  rw [(List.mergeSort_perm ks.dedup pairLeB).mem_iff, List.mem_dedup]

/-- Drivers occurring in the rows of the catalog merge of the packing table
are exactly the drivers of the aggregates. -/
theorem mem_drivers_packMerge {d : String} (aggs : List PackingAgg)
    (plist : List CatalogEntry) :
    d ∈ (packMerge aggs plist).map (·.driver) ↔ d ∈ aggs.map (·.driver) := by
  simp only [List.mem_map, packMerge, List.mem_flatMap]
  constructor
  · rintro ⟨p, ⟨a, ha, hp⟩, hd⟩
    refine ⟨a, ha, ?_⟩
    cases hm : matchesFor plist a.lineitemName with
    | nil =>
        rw [hm] at hp
        rw [List.mem_singleton] at hp
        rw [← hd, hp]; rfl
    | cons e es =>
        rw [hm] at hp
        simp only [List.mem_map] at hp
        obtain ⟨e2, _, rfl⟩ := hp
        rw [← hd]; rfl
  · rintro ⟨a, ha, hd⟩
    cases hm : matchesFor plist a.lineitemName with
    | nil =>
        exact ⟨packMergeRow a none,
          ⟨a, ha, by rw [hm]; exact List.mem_singleton_self _⟩, hd⟩
    | cons e es =>
        exact ⟨packMergeRow a (some e),
          ⟨a, ha, by rw [hm]; exact List.mem_map_of_mem _ (List.mem_cons_self e es)⟩,
          hd⟩

/-- Drivers of the aggregates are exactly the first components of the base
triples. -/
theorem mem_drivers_groupSum {d : String} (base : List (String × String × Int)) :
    d ∈ (groupSum base).map (·.driver) ↔ d ∈ base.map (·.1) := by
  simp only [groupSum, List.map_map, List.mem_map, Function.comp_apply]
  constructor
  · rintro ⟨k, hk, rfl⟩
    rw [mem_sortedPairKeys] at hk
    simp only [List.mem_map] at hk
    obtain ⟨t, ht, rfl⟩ := hk
    exact ⟨t, ht, rfl⟩
  · rintro ⟨t, ht, rfl⟩
    exact ⟨(t.1, t.2.1),
      mem_sortedPairKeys.mpr (List.mem_map_of_mem _ ht), rfl⟩

/-- First components of the base triples are exactly the non-null drivers
of the input rows. -/
theorem mem_drivers_baseOf {d : String} (rows : List FinalRouteRow) :
    d ∈ (baseOf rows).map (·.1) ↔ some d ∈ rows.map (·.driver) := by
  simp only [baseOf, List.mem_map, List.mem_filterMap]
  constructor
  · rintro ⟨t, ⟨r, hr, hg⟩, ht⟩
    cases hdr : r.driver with
    | none => rw [hdr] at hg; cases hg
    | some d2 =>
        rw [hdr] at hg
        simp only [Option.map_some', Option.some.injEq] at hg
        subst hg
        exact ⟨r, hr, by rw [hdr]; exact congrArg some ht⟩
  · rintro ⟨r, hr, hdr⟩
    exact ⟨(d, r.lineitemName, rowCountInt r), ⟨r, hr, by rw [hdr]; rfl⟩, rfl⟩

/-- Drivers of a successfully built packing table are exactly the non-null
drivers of the route rows it was built from. -/
theorem mem_drivers_buildPacking {d : String} (rows : List FinalRouteRow)
    (plist : List CatalogEntry) (pk : List PackingRow)
    (hpk : buildPacking rows plist = some pk) :
    d ∈ pk.map (·.driver) ↔ some d ∈ rows.map (·.driver) := by
  rw [buildPacking_some_eq rows plist pk hpk]
  rw [((List.mergeSort_perm (packMerge (groupSum (baseOf rows)) plist)
    packLeB).map (·.driver)).mem_iff]
  rw [mem_drivers_packMerge, mem_drivers_groupSum, mem_drivers_baseOf]

/-- Pandas sum over a column of non-null cells is the plain sum. -/
theorem psum_map_some (l : List Int) : psum (l.map some) = l.sum := by
  induction l with
  | nil => rfl
  | cons x xs ih => simp [psum, List.filterMap_cons] at ih ⊢

/-- The numeric columns of the routing data rows are the numeric columns of
the underlying group. -/
theorem routingDataRow_numeric (g : List FinalRouteRow) :
    (g.map routingDataRow).map (·.totalItems) = g.map (·.totalItems) ∧
    (g.map routingDataRow).map (·.time) = g.map (·.time) ∧
    (g.map routingDataRow).map (·.dist) = g.map (·.dist) := by
  induction g with
  | nil => exact ⟨rfl, rfl, rfl⟩
  | cons r rs ih =>
      refine ⟨?_, ?_, ?_⟩
      · simp only [List.map_cons]
        rw [ih.1]
        rfl
      · simp only [List.map_cons]
        rw [ih.2.1]
        rfl
      · simp only [List.map_cons]
        rw [ih.2.2]
        rfl

/-- The Count column of the packing data rows is the Count column of the
underlying group, wrapped in `some`. -/
theorem packingDataRow_count (g : List PackingRow) :
    (g.map packingDataRow).map (·.count) = (g.map (·.count)).map some := by
  induction g with
  | nil => rfl
  | cons p ps ih => simp only [List.map_cons, ih]; rfl

/-! ## Claim C6 -/

/-- C6: when the packing table builds successfully, every driver present in
the merged data appears as exactly one sheet in both workbooks (the sheet
name lists have no duplicates, and a driver has a sheet in either workbook
exactly when it occurs in the merged rows), and on every sheet of either
workbook the final row carries, in its numeric columns, the column sums of
all preceding data rows of that sheet (Total items, time and dist for
routing; Count for packing), every other cell of that final row being
blank. -/
theorem C6_sheets_and_totals (rows : List FinalRouteRow) (plist : List CatalogEntry)
    (prows : List PackingRow) (hpk : buildPacking rows plist = some prows) :
    ((create_routing_file rows).map Prod.fst).Nodup ∧
    ((create_packing_file prows).map Prod.fst).Nodup ∧
    (∀ d : String,
      d ∈ (create_routing_file rows).map Prod.fst ↔ some d ∈ rows.map (·.driver)) ∧
    (∀ d : String,
      d ∈ (create_packing_file prows).map Prod.fst ↔ some d ∈ rows.map (·.driver)) ∧
    (∀ s ∈ create_routing_file rows, ∃ data : List RoutingSheetRow,
      s.2 = data ++ [routingTotalOfSheet data]) ∧
    (∀ s ∈ create_packing_file prows, ∃ data : List PackingSheetRow,
      s.2 = data ++ [packingTotalOfSheet data]) := by
  refine ⟨?_, ?_, ?_, ?_, ?_, ?_⟩
  · rw [create_routing_file_names]; exact sortedKeys_nodup _
  · rw [create_packing_file_names]; exact sortedKeys_nodup _
  · intro d
    rw [create_routing_file_names, mem_sortedKeys, mem_filterMap_driver]
  · intro d
    rw [create_packing_file_names, mem_sortedKeys]
    exact mem_drivers_buildPacking rows plist prows hpk
  · intro s hs
    simp only [create_routing_file, List.mem_map] at hs
    obtain ⟨g, _, rfl⟩ := hs
    refine ⟨g.2.map routingDataRow, ?_⟩
    have hnum := routingDataRow_numeric g.2
    show g.2.map routingDataRow ++ [routingTotalRow g.2] = _
    congr 1
    unfold routingTotalRow routingTotalOfSheet
    rw [hnum.1, hnum.2.1, hnum.2.2]
  · intro s hs
    simp only [create_packing_file, List.mem_map] at hs
    obtain ⟨g, _, rfl⟩ := hs
    refine ⟨g.2.map packingDataRow, ?_⟩
    show g.2.map packingDataRow ++ [packingTotalRow g.2] = _
    congr 1
    unfold packingTotalRow packingTotalOfSheet
    rw [packingDataRow_count, psum_map_some]

/-! ## Sum conservation machinery -/

/-- Summing a constant zero column yields zero. -/
theorem sum_map_zero {K : Type} (l : List K) :
    (l.map (fun _ => (0 : Int))).sum = 0 := by
  induction l with
  | nil => rfl
  | cons k ks ih => simp [ih]

/-- Sums distribute over pointwise addition of columns. -/
theorem sum_map_add {K : Type} (l : List K) (f g : K → Int) :
    (l.map (fun k => f k + g k)).sum = (l.map f).sum + (l.map g).sum := by
  induction l with
  | nil => rfl
  | cons k ks ih => simp only [List.map_cons, List.sum_cons, ih]; ring

/-- An indicator column over keys not containing the probe sums to zero. -/
theorem sum_map_indicator_not_mem {K : Type} [BEq K] [LawfulBEq K]
    (keys : List K) (k0 : K) (v : Int) (h : k0 ∉ keys) :
    (keys.map (fun k => if k0 == k then v else 0)).sum = 0 := by
  induction keys with
  | nil => rfl
  | cons k ks ih =>
      simp only [List.map_cons, List.sum_cons]
      have hk : ¬ (k0 == k) = true := fun hb =>
        h (by rw [eq_of_beq hb]; exact List.mem_cons_self k ks)
      rw [if_neg hk, ih (fun hm => h (List.mem_cons_of_mem k hm))]
      ring

/-- An indicator column over distinct keys containing the probe once sums
to the probed value. -/
theorem sum_map_indicator_mem {K : Type} [BEq K] [LawfulBEq K]
    (keys : List K) (k0 : K) (v : Int) (hnd : keys.Nodup) (hmem : k0 ∈ keys) :
    (keys.map (fun k => if k0 == k then v else 0)).sum = v := by
  induction keys with
  | nil => cases hmem
  | cons k ks ih =>
      rw [List.nodup_cons] at hnd
      simp only [List.map_cons, List.sum_cons]
      rcases List.mem_cons.mp hmem with he | hm
      · subst he
        rw [if_pos (beq_self_eq_true k0), sum_map_indicator_not_mem ks k0 v hnd.1]
        ring
      · have hne : ¬ (k0 == k) = true := fun hb => by
          rw [eq_of_beq hb] at hm; exact hnd.1 hm
        rw [if_neg hne, ih hnd.2 hm]
        ring

/-- Grouping rows by distinct covering keys conserves every key-predicate
restricted column sum: summing the group sums over the keys satisfying a
predicate equals summing the original rows whose key satisfies it. -/
theorem sum_groups_filter {K R : Type} [BEq K] [LawfulBEq K]
    (key : R → K) (c : R → Int) (q : K → Bool) (keys : List K)
    (hnd : keys.Nodup) :
    ∀ rows : List R, (∀ r ∈ rows, key r ∈ keys) →
      ((keys.filter q).map
          (fun k => ((rows.filter (fun r => key r == k)).map c).sum)).sum
        = ((rows.filter (fun r => q (key r))).map c).sum := by
  intro rows
  induction rows with
  | nil =>
      intro _
      have hz : ((keys.filter q).map
          (fun k => ((List.filter (fun r => key r == k) ([] : List R)).map c).sum))
          = (keys.filter q).map (fun _ => (0 : Int)) :=
        List.map_congr_left (fun k _ => rfl)
      rw [hz, sum_map_zero]
      rfl
  | cons r rs ih =>
      intro hcov
      have hcov2 : ∀ x ∈ rs, key x ∈ keys :=
        fun x hx => hcov x (List.mem_cons_of_mem r hx)
      have hstep : ∀ k ∈ keys.filter q,
          ((List.filter (fun x => key x == k) (r :: rs)).map c).sum
            = (if key r == k then c r else 0)
              + ((List.filter (fun x => key x == k) rs).map c).sum := by
        intro k _
        by_cases h : (key r == k) = true
        · simp [List.filter_cons, h]
        · simp [List.filter_cons, h]
      rw [List.map_congr_left hstep, sum_map_add, ih hcov2]
      by_cases hq : q (key r) = true
      · have hmem : key r ∈ keys.filter q :=
          List.mem_filter.mpr ⟨hcov r (List.mem_cons_self r rs), hq⟩
        rw [sum_map_indicator_mem (keys.filter q) (key r) (c r)
          (hnd.filter q) hmem]
        simp [List.filter_cons, hq]
      · have hnmem : key r ∉ keys.filter q := fun hmem =>
          hq ((List.mem_filter.mp hmem).2)
        rw [sum_map_indicator_not_mem (keys.filter q) (key r) (c r) hnmem]
        simp [List.filter_cons, hq]

/-- When every aggregate matches at most one catalog entry, the catalog
merge of the packing table keeps exactly one row per aggregate, with the
same driver and count. -/
theorem packMerge_proj (aggs : List PackingAgg) (plist : List CatalogEntry)
    (h : ∀ a ∈ aggs, (matchesFor plist a.lineitemName).length ≤ 1) :
    (packMerge aggs plist).map (fun p => (p.driver, p.count))
      = aggs.map (fun a => (a.driver, a.count)) := by
  induction aggs with
  | nil => rfl
  | cons a as ih =>
      have ha := h a (List.mem_cons_self a as)
      have h2 : ∀ x ∈ as, (matchesFor plist x.lineitemName).length ≤ 1 :=
        fun x hx => h x (List.mem_cons_of_mem a hx)
      simp only [packMerge, List.flatMap_cons, List.map_append]
      cases hm : matchesFor plist a.lineitemName with
      | nil =>
          exact congrArg (List.cons (a.driver, a.count)) (ih h2)
      | cons e es =>
          rw [hm] at ha
          cases es with
          | cons e2 es2 => simp only [List.length_cons] at ha; omega
          | nil =>
              exact congrArg (List.cons (a.driver, a.count)) (ih h2)

/-- Restricting the base triples to one driver and summing their counts is
the per-driver sum of the parsed route counts. -/
theorem base_filter_sum (rows : List FinalRouteRow) (d : String) :
    (((baseOf rows).filter (fun t => t.1 == d)).map (fun t => t.2.2)).sum
      = ((rows.filter (fun r => r.driver == some d)).map rowCountInt).sum := by
  unfold baseOf
  induction rows with
  | nil => rfl
  | cons r rs ih =>
      cases hd : r.driver with
      | none => simp [List.filterMap_cons, hd, List.filter_cons, ih]
      | some d2 =>
          by_cases he : d2 = d
          · subst he
            simp [List.filterMap_cons, hd, List.filter_cons, ih]
          · simp [List.filterMap_cons, hd, List.filter_cons, beq_iff_eq, he, ih]

/-- The packing sort comparison is transitive. -/
theorem packLeB_trans : ∀ a b c : PackingRow,
    packLeB a b = true → packLeB b c = true → packLeB a c = true := by
  intro a b c hab hbc
  simp only [packLeB, decide_eq_true_eq] at hab hbc ⊢
  exact le_trans hab hbc

/-- The packing sort comparison is total. -/
theorem packLeB_total : ∀ a b : PackingRow, (packLeB a b || packLeB b a) = true := by
  intro a b
  rcases le_total (packKey a) (packKey b) with h | h <;> simp [packLeB, h]

/-- Item names of the packing aggregates all occur among the route rows, so
an at-most-one-match hypothesis transfers from rows to aggregates. -/
theorem groupSum_matches_le (rows : List FinalRouteRow) (plist : List CatalogEntry)
    (hone : ∀ r ∈ rows, (matchesFor plist r.lineitemName).length ≤ 1) :
    ∀ a ∈ groupSum (baseOf rows), (matchesFor plist a.lineitemName).length ≤ 1 := by
  intro a ha
  simp only [groupSum, List.mem_map] at ha
  obtain ⟨k, hk, rfl⟩ := ha
  rw [mem_sortedPairKeys] at hk
  simp only [List.mem_map] at hk
  obtain ⟨t, ht, rfl⟩ := hk
  simp only [baseOf, List.mem_filterMap] at ht
  obtain ⟨r, hr, hgr⟩ := ht
  cases hdr : r.driver with
  | none => rw [hdr] at hgr; cases hgr
  | some d2 =>
      rw [hdr] at hgr
      simp only [Option.map_some', Option.some.injEq] at hgr
      subst hgr
      exact hone r hr

/-! ## Claim C7 -/

/-- C7 (amended): provided the packing build succeeds and every item name
of the merged data matches at most one catalog title, the packing
aggregation is count-conserving per driver — the sum of the packing Count
column over a driver's rows equals the sum of the parsed item counts of
that driver's merged route rows — and the packing rows are sorted
ascending by (driver, product type, SKU, item name).  Without the
at-most-one-match condition the re-join with the catalog duplicates
packing rows and the sums diverge (see the counterexample). -/
theorem C7_packing_conservation (rows : List FinalRouteRow)
    (plist : List CatalogEntry) (pk : List PackingRow) (d : String)
    (hpk : buildPacking rows plist = some pk)
    (hone : ∀ r ∈ rows, (matchesFor plist r.lineitemName).length ≤ 1) :
    ((pk.filter (fun p => p.driver == d)).map (·.count)).sum
      = ((rows.filter (fun r => r.driver == some d)).map rowCountInt).sum ∧
    pk.Pairwise (fun a b => packLeB a b = true) := by
  have hpk2 := buildPacking_some_eq rows plist pk hpk
  constructor
  · subst hpk2
    have hA : ((((packMerge (groupSum (baseOf rows)) plist).mergeSort
          packLeB).filter (fun p => p.driver == d)).map (·.count)).sum
        = (((packMerge (groupSum (baseOf rows)) plist).filter
          (fun p => p.driver == d)).map (·.count)).sum :=
      (((List.mergeSort_perm _ packLeB).filter _).map _).sum_eq
    rw [hA]
    have hproj : ∀ (l : List PackingRow),
        ((l.filter (fun p => p.driver == d)).map (·.count)).sum
          = (((l.map (fun p => (p.driver, p.count))).filter
            (fun x => x.1 == d)).map (·.2)).sum := by
      intro l
      rw [List.filter_map, List.map_map]
      rfl
    have hprojAgg : ∀ (l : List PackingAgg),
        ((l.filter (fun a => a.driver == d)).map (·.count)).sum
          = (((l.map (fun a => (a.driver, a.count))).filter
            (fun x => x.1 == d)).map (·.2)).sum := by
      intro l
      rw [List.filter_map, List.map_map]
      rfl
    rw [hproj, packMerge_proj _ _ (groupSum_matches_le rows plist hone),
      ← hprojAgg]
    have hC : (((groupSum (baseOf rows)).filter
          (fun a => a.driver == d)).map (·.count)).sum
        = (((baseOf rows).filter (fun t => t.1 == d)).map
          (fun t => t.2.2)).sum := by
      unfold groupSum
      rw [List.filter_map, List.map_map]
      exact sum_groups_filter (fun t : String × String × Int => (t.1, t.2.1))
        (fun t => t.2.2) (fun k => k.1 == d)
        (sortedPairKeys ((baseOf rows).map (fun t => (t.1, t.2.1))))
        (sortedPairKeys_nodup _) (baseOf rows)
        (fun t ht => mem_sortedPairKeys.mpr (List.mem_map_of_mem _ ht))
    rw [hC, base_filter_sum]
  · rw [hpk2]
    exact List.sorted_mergeSort packLeB_trans packLeB_total _

/-- Concrete evaluation of the packing build on the one-row, empty-catalog
input. -/
theorem buildPacking_cx_eval :
    buildPacking [cxRouteRowToFinal] [] =
      some [packMergeRow
        { driver := "Dan", lineitemName := "X", count := 2, countNew := some 2 }
        none] := by
  have h1 : buildPacking [cxRouteRowToFinal] [] =
      some ((packMerge (groupSum [("Dan", "X", 2)]) []).mergeSort packLeB) := rfl
  rw [h1]
  have hkeys : sortedPairKeys [("Dan", "X")] = [("Dan", "X")] := by
    show ([("Dan", "X")].dedup).mergeSort pairLeB = [("Dan", "X")]
    rw [show ([("Dan", "X")] : List (String × String)).dedup = [("Dan", "X")]
      from rfl]
    exact List.mergeSort_singleton _
  have h2 : groupSum [("Dan", "X", 2)] =
      [{ driver := "Dan", lineitemName := "X", count := 2, countNew := some 2 }] := by
    unfold groupSum
    rw [show ([("Dan", "X", 2)] : List (String × String × Int)).map
        (fun t => (t.1, t.2.1)) = [("Dan", "X")] from rfl]
    rw [hkeys]
    rfl
  rw [h2]
  rw [show packMerge
      [{ driver := "Dan", lineitemName := "X", count := 2, countNew := some 2 }] []
      = [packMergeRow
          { driver := "Dan", lineitemName := "X", count := 2, countNew := some 2 }
          none] from rfl]
  rw [List.mergeSort_singleton]

/-- C7 counterexample: with the catalog title "A" duplicated, driver D has
merged route rows whose parsed counts sum to 4, but the packing build
re-joins the aggregated group with both catalog rows, so the packing Count
column for D sums to 8 — the claimed per-driver conservation fails even
though no null is involved. -/
theorem C7_counterexample :
    (buildPacking cxFanRows cxDupCatalog).map
        (fun pk => ((pk.filter (fun p => p.driver == "D")).map (·.count)).sum)
      = some 8 ∧
    ((cxFanRows.filter (fun r => r.driver == some "D")).map rowCountInt).sum = 4 ∧
    (8 : Int) ≠ 4 := by
  refine ⟨?_, by rfl, by decide⟩
  have h1 : buildPacking cxFanRows cxDupCatalog =
      some ((packMerge (groupSum [("D", "A", 2), ("D", "A", 2)])
        cxDupCatalog).mergeSort packLeB) := rfl
  rw [h1, Option.map_some']
  refine congrArg some ?_
  have hperm := (((List.mergeSort_perm
      (packMerge (groupSum [("D", "A", 2), ("D", "A", 2)]) cxDupCatalog)
      packLeB).filter (fun p => p.driver == "D")).map (·.count)).sum_eq
  rw [hperm]
  have hkeys : sortedPairKeys [("D", "A"), ("D", "A")] = [("D", "A")] := by
    show ([("D", "A"), ("D", "A")].dedup).mergeSort pairLeB = [("D", "A")]
    rw [show ([("D", "A"), ("D", "A")] : List (String × String)).dedup
        = [("D", "A")] from rfl]
    exact List.mergeSort_singleton _
  have h2 : groupSum [("D", "A", 2), ("D", "A", 2)] =
      [{ driver := "D", lineitemName := "A", count := 4, countNew := some 4 }] := by
    unfold groupSum
    rw [show ([("D", "A", 2), ("D", "A", 2)] : List (String × String × Int)).map
        (fun t => (t.1, t.2.1)) = [("D", "A"), ("D", "A")] from rfl]
    rw [hkeys]
    rfl
  rw [h2]
  rfl

/-- C6 witness: the theorem applied to the concrete one-row route table,
the empty catalog and the packing table its build produces. -/
theorem C6_sheets_and_totals_witness :
    ((create_routing_file [cxRouteRowToFinal]).map Prod.fst).Nodup :=
  (C6_sheets_and_totals [cxRouteRowToFinal] []
    [packMergeRow
      { driver := "Dan", lineitemName := "X", count := 2, countNew := some 2 }
      none]
    buildPacking_cx_eval).1

/-- C7 witness: the amended conservation theorem applied to the concrete
one-row route table and empty catalog: driver Dan's packing count sum
equals the parsed count of his single merged row, and the packing rows are
sorted. -/
theorem C7_packing_conservation_witness :
    (([packMergeRow
        { driver := "Dan", lineitemName := "X", count := 2, countNew := some 2 }
        none].filter (fun p => p.driver == "Dan")).map (·.count)).sum
      = (([cxRouteRowToFinal].filter
          (fun r => r.driver == some "Dan")).map rowCountInt).sum ∧
    [packMergeRow
      { driver := "Dan", lineitemName := "X", count := 2, countNew := some 2 }
      none].Pairwise (fun a b => packLeB a b = true) :=
  C7_packing_conservation [cxRouteRowToFinal] [] _ "Dan" buildPacking_cx_eval
    (fun r _ => by simp [matchesFor])
